import Mathlib

/-!
# Verification of the gmocky-v2 mock-record store

Shallow embedding of `src/internal/mock.go` and `src/pkg/content_types.go`:
the mock-record data model (`MockedRequest`, `MockedRequestLight`), the
store operations (`Mock.New`, `Mock.Get`, `Mock.List`, `Mock.Clean`) and the
reference vocabularies (`CONTENT_TYPES`, `CHARSET`, `HTTP_CODES`).

The on-disk store (a directory of `<uuid>.json` files) is modelled as a
`Store`: a list of named entries, each either a deserializable record
(`Entry.ok`) or bytes that fail to deserialize (`Entry.corrupt`), plus a
`readable` flag modelling whether `os.ReadDir` on the working directory
succeeds.  Environment inputs of `New` (the generated UUID, the formatted
`time.Now()` timestamp) are explicit parameters.
-/

namespace Gmocky

/-- Byte-wise (code-point) comparison of character lists, as Go compares
strings with `<` / `<=`; `CreatedAt` timestamps are ASCII so code points
coincide with bytes. -/
def charListLe : List Char → List Char → Bool
  | [], _ => true
  | _ :: _, [] => false
  | a :: as, b :: bs =>
    if a.toNat < b.toNat then true
    else if b.toNat < a.toNat then false
    else charListLe as bs

/-- Go string comparison `a <= b`. -/
def strLe (a b : String) : Bool := charListLe a.data b.data

theorem charListLe_total : ∀ a b : List Char, charListLe a b = true ∨ charListLe b a = true
  | [], _ => Or.inl rfl
  | _ :: _, [] => Or.inr rfl
  | a :: as, b :: bs => by
    simp only [charListLe]
    rcases Nat.lt_trichotomy a.toNat b.toNat with h | h | h
    · left; simp [h]
    · have h1 : ¬ a.toNat < b.toNat := by omega
      have h2 : ¬ b.toNat < a.toNat := by omega
      rcases charListLe_total as bs with ih | ih
      · left; simp [h1, h2, ih]
      · right; simp [h1, h2, ih]
    · right; simp [h]

theorem charListLe_trans : ∀ a b c : List Char,
    charListLe a b = true → charListLe b c = true → charListLe a c = true
  | [], _, _, _, _ => rfl
  | _ :: _, [], _, h, _ => by simp [charListLe] at h
  | _ :: _, _ :: _, [], _, h => by simp [charListLe] at h
  | a :: as, b :: bs, c :: cs, hab, hbc => by
    simp only [charListLe] at hab hbc ⊢
    by_cases h1 : a.toNat < b.toNat
    · by_cases h2 : b.toNat < c.toNat
      · simp [show a.toNat < c.toNat by omega]
      · simp only [if_pos h1] at hab
        by_cases h3 : c.toNat < b.toNat
        · simp [h2, h3] at hbc
        · have : a.toNat < c.toNat := by omega
          simp [this]
    · by_cases h2 : b.toNat < a.toNat
      · simp [h1, h2] at hab
      · have hba : a.toNat = b.toNat := by omega
        by_cases h3 : b.toNat < c.toNat
        · simp [hba ▸ h3]
        · by_cases h4 : c.toNat < b.toNat
          · simp [h3, h4] at hbc
          · simp only [if_neg h3, if_neg h4] at hbc
            simp only [if_neg h1, if_neg h2] at hab
            have : ¬ a.toNat < c.toNat := by omega
            have h5 : ¬ c.toNat < a.toNat := by omega
            simp [this, h5, charListLe_trans as bs cs hab hbc]

theorem strLe_total (a b : String) : strLe a b = true ∨ strLe b a = true :=
  charListLe_total a.data b.data

theorem strLe_trans {a b c : String} :
    strLe a b = true → strLe b c = true → strLe a c = true :=
  charListLe_trans a.data b.data c.data

/-- `stringsutil.Int` parsing step: a decimal digit run (`strconv.Atoi` body). -/
def parseDigits : List Char → Option Nat
  | [] => none
  | l => go l 0
where
  go : List Char → Nat → Option Nat
    | [], acc => some acc
    | c :: cs, acc => if c.isDigit then go cs (acc * 10 + (c.toNat - 48)) else none

/-- `strconv.Atoi`: optional sign then a nonempty digit run. -/
def stringToInt (s : String) : Option Int :=
  match s.data with
  | '-' :: rest => (parseDigits rest).map (fun n => -(n : Int))
  | '+' :: rest => (parseDigits rest).map (fun n => (n : Int))
  | l => (parseDigits l).map (fun n => (n : Int))

/-- `stringsutil.Int(value, default)`: parse or fall back to the default. -/
def stringsutilInt (s : String) (dflt : Int) : Int :=
  (stringToInt s).getD dflt

end Gmocky

namespace pkg

/-- `CONTENT_TYPES` from `src/pkg/content_types.go`. -/
def CONTENT_TYPES : List String :=
  ["application/json",
   "application/x-www-form-urlencoded",
   "application/xhtml+xml",
   "application/xml",
   "image/jpeg",
   "image/png",
   "image/svg+xml",
   "multipart/form-data",
   "text/css",
   "text/csv",
   "text/html",
   "text/json",
   "text/plain",
   "text/xml"]

/-- `CHARSET` from `src/pkg/content_types.go`. -/
def CHARSET : List String := ["UTF-8", "ISO-8859-1", "UTF-16"]

/-- Modelled from the spec: `pkg.HTTP_CODES`, the closed vocabulary of
supported HTTP status codes (its defining file is not under `src/`; the spec
calls it the "supported status-code vocabulary" of standard HTTP codes, and
the tests exercise members such as 200 and 404).  Only the keys of the Go
map matter to the store, so the model is the key set. -/
def HTTP_CODES : List Int :=
  [100, 101, 102, 103,
   200, 201, 202, 203, 204, 205, 206, 207, 208, 226,
   300, 301, 302, 303, 304, 305, 306, 307, 308,
   400, 401, 402, 403, 404, 405, 406, 407, 408, 409, 410, 411, 412, 413,
   414, 415, 416, 417, 418, 421, 422, 423, 424, 425, 426, 428, 429, 431, 451,
   500, 501, 502, 503, 504, 505, 506, 507, 508, 510, 511]

end pkg

namespace Gmocky

/-- `MockedRequest` from `src/internal/mock.go`.  `Headers` is Go's
`map[string]string`, modelled as an association list compared through
lookups; `Body` is `[]byte`, modelled as a list of byte values. -/
structure MockedRequest where
  UUID : String
  CreatedAt : String
  Status : Int
  ContentType : String
  Charset : String
  Headers : List (String × String)
  Body : List Nat
  deriving Repr, DecidableEq

/-- `MockedRequestLight` from `src/internal/mock.go`: the summary projection. -/
structure MockedRequestLight where
  UUID : String
  CreatedAt : String
  Status : Int
  ContentType : String
  deriving Repr, DecidableEq

/-- Lookup of a key in the `Headers` map. -/
def lookupH (hs : List (String × String)) (k : String) : Option String :=
  (hs.find? (fun p => p.1 == k)).map (fun p => p.2)

/-- `reflect.DeepEqual` on two `map[string]string` values: the same key set
with the same value at every key. -/
def headersEqual (h1 h2 : List (String × String)) : Bool :=
  ((h1.map (fun p => p.1)) ++ (h2.map (fun p => p.1))).all
    (fun k => lookupH h1 k == lookupH h2 k)

/-- `MockedRequest.Equals` from `src/internal/mock.go` lines 32-39: field
equality on Status, ContentType, Charset, Body (`bytes.Equal`) and Headers
(`reflect.DeepEqual`); `UUID` and `CreatedAt` take no part. -/
def MockedRequest.Equals (m arg : MockedRequest) : Bool :=
  m.Status == arg.Status &&
  m.ContentType == arg.ContentType &&
  m.Charset == arg.Charset &&
  m.Body == arg.Body &&
  headersEqual m.Headers arg.Headers

/-- The summary stored alongside the full record in a `<uuid>.json` file,
as `get[MockedRequestLight]` deserializes it during `List`. -/
def MockedRequest.toLight (r : MockedRequest) : MockedRequestLight :=
  { UUID := r.UUID, CreatedAt := r.CreatedAt,
    Status := r.Status, ContentType := r.ContentType }

/-- One `<id>.json` file of the working directory: either bytes that
deserialize into a `MockedRequest` or bytes that fail to (corrupt data). -/
inductive Entry where
  | ok (r : MockedRequest)
  | corrupt
  deriving Repr, DecidableEq

/-- The working directory: named entries plus whether `os.ReadDir`
succeeds on it. -/
structure Store where
  readable : Bool
  entries : List (String × Entry)
  deriving Repr, DecidableEq

/-- Errors of `get` (`iosutil.Load` / `jsonsutil.Unmarshal`). -/
inductive GetError where
  | notFound
  | corruptData
  deriving Repr, DecidableEq

/-- `Mock.Get` from `src/internal/mock.go` lines 67-84: load the file named
by the id and deserialize it. -/
def Mock.Get (s : Store) (mockId : String) : Except GetError MockedRequest :=
  match s.entries.find? (fun e => e.1 == mockId) with
  | none => .error .notFound
  | some (_, .corrupt) => .error .corruptData
  | some (_, .ok r) => .ok r

/-- Newest-first enumeration order of `List`: `SortT` is called with the
comparator `(mrl2.CreatedAt, mrl1.CreatedAt)`, i.e. descending `CreatedAt`. -/
def lightOrder (a b : MockedRequestLight) : Prop :=
  strLe b.CreatedAt a.CreatedAt = true

instance : DecidableRel lightOrder := fun a b =>
  inferInstanceAs (Decidable (strLe b.CreatedAt a.CreatedAt = true))

instance : IsTotal MockedRequestLight lightOrder :=
  ⟨fun a b => (strLe_total b.CreatedAt a.CreatedAt).elim Or.inl Or.inr⟩

instance : IsTrans MockedRequestLight lightOrder :=
  ⟨fun _ _ _ hab hbc => strLe_trans hbc hab⟩

/-- The `slicesutil.TransformT` pass of `List`: each entry is deserialized
into its summary; an entry whose bytes fail to deserialize yields an error
from `get` and is dropped from the `[]MockedRequestLight` result (the
transform returns only the successfully converted elements). -/
def listDeserialize (entries : List (String × Entry)) : List MockedRequestLight :=
  entries.filterMap (fun e =>
    match e.2 with
    | .ok r => some r.toLight
    | .corrupt => none)

/-- `Mock.List` from `src/internal/mock.go` lines 87-105: read the
directory (the only error path), deserialize every entry into its summary,
sort by `CreatedAt` descending, and fall back to the empty slice. -/
def Mock.List (s : Store) : Except String (List MockedRequestLight) :=
  if s.readable then
    .ok (List.insertionSort lightOrder (listDeserialize s.entries))
  else
    .error "error to read directory"

/-- The `getReqParam` closure of `New`: first value of a parameter, or "". -/
def getReqParam (values : List String) : String :=
  match values with
  | [] => ""
  | v :: _ => v

/-- Set a key of the `Headers` map (`mock.Headers[name] = values[0]`). -/
def setHeader (hs : List (String × String)) (k v : String) : List (String × String) :=
  (hs.filter (fun p => p.1 != k)) ++ [(k, v)]

/-- One iteration of the parameter loop of `New` (lines 123-136): the
reserved names fill the typed fields, any other name with at least one
value becomes a header. -/
def applyParam (mock : MockedRequest) (p : String × List String) : MockedRequest :=
  if p.1 == "contentType" then { mock with ContentType := getReqParam p.2 }
  else if p.1 == "charset" then { mock with Charset := getReqParam p.2 }
  else if p.1 == "status" then
    { mock with Status := stringsutilInt (getReqParam p.2) (-1) }
  else if p.2.length > 0 then
    { mock with Headers := setHeader mock.Headers p.1 (getReqParam p.2) }
  else mock

/-- Go's `map[string][]string` of request parameters, in iteration order. -/
abbrev ReqParams := List (String × List String)

/-- Go's `[]byte`. -/
abbrev Bytes := List Nat

/-- The candidate record `New` builds before validating (lines 109-136):
zero values for the typed fields, the generated UUID and formatted
timestamp, the request body, then the parameter loop. -/
def buildMock (uuid createdAt : String) (reqParams : ReqParams)
    (reqBody : Bytes) : MockedRequest :=
  reqParams.foldl applyParam
    { UUID := uuid, CreatedAt := createdAt, Status := 0,
      ContentType := "", Charset := "", Headers := [], Body := reqBody }

/-- The `fmt.Errorf` message of the status check (line 139). -/
def statusErrMsg (st : Int) : String :=
  let v := toString st
  s!"status \x7b{v}\x7d does not exist"

/-- The `fmt.Errorf` message of the content-type check (line 143). -/
def contentTypeErrMsg (ct : String) : String :=
  s!"content type \x7b{ct}\x7d does not exist"

/-- The `fmt.Errorf` message of the charset check (line 147). -/
def charsetErrMsg (cs : String) : String :=
  s!"charset \x7b{cs}\x7d does not exist"

/-- `Mock.New` from `src/internal/mock.go` lines 108-163: build the
candidate, validate status then content type then charset (first failure
returns its error and leaves the directory untouched), then marshal and
write `<uuid>.json` (a write to an existing name would replace the file).
The generated UUID and the formatted `time.Now()` are environment inputs,
passed explicitly; serialization round-trips exactly and the directory is
writable, so the write step always succeeds in the model.  Returns the
result paired with the resulting store. -/
def Mock.New (s : Store) (reqParams : ReqParams)
    (reqBody : Bytes) (uuid createdAt : String) :
    Except String String × Store :=
  let mock := buildMock uuid createdAt reqParams reqBody
  if ¬ pkg.HTTP_CODES.contains mock.Status then
    (.error (statusErrMsg mock.Status), s)
  else if ¬ pkg.CONTENT_TYPES.contains mock.ContentType then
    (.error (contentTypeErrMsg mock.ContentType), s)
  else if ¬ pkg.CHARSET.contains mock.Charset then
    (.error (charsetErrMsg mock.Charset), s)
  else
    (.ok uuid,
     { s with entries := (s.entries.filter (fun e => e.1 != uuid)) ++ [(uuid, .ok mock)] })

/-- `Mock.Clean` from `src/internal/mock.go` lines 166-186: no-op for
`maxLimit < 1`; list (propagating its error); no-op when at most
`maxLimit` records exist; otherwise `os.Remove` each record of the tail of
the newest-first enumeration, counting only the removals that succeed.
`removeOk` models which `os.Remove` calls succeed.  Returns the
count-or-error paired with the resulting store. -/
def Mock.Clean (s : Store) (removeOk : String → Bool) (maxLimit : Int) :
    Except String Int × Store :=
  if maxLimit < 1 then (.ok 0, s)
  else
    match Mock.List s with
    | .error e => (.error e, s)
    | .ok mockedRequests =>
      let nbToDelete : Int := (mockedRequests.length : Int) - maxLimit
      if nbToDelete < 1 then (.ok 0, s)
      else
        let tail := mockedRequests.drop (mockedRequests.length - nbToDelete.toNat)
        let removed := tail.filter (fun mr => removeOk mr.UUID)
        let removedIds := removed.map (fun mr => mr.UUID)
        (.ok (removed.length : Int),
         { s with entries := s.entries.filter (fun e => !removedIds.contains e.1) })

/-- Modelled from the spec: the Response Writer's effective-delay
resolution (`Response.Write` is not under `src/`; only its tests
`TestWrite` and `TestWriteWithMaxDelay` are).  Per the spec, if the
requested delay is absent or unparsable the effective delay is 0, else it
is the minimum of the requested delay and the server-configured maximum.
Durations are in milliseconds; `none` stands for an absent or unparsable
requested delay. -/
def effectiveDelay (requested : Option Nat) (maxDelay : Nat) : Nat :=
  match requested with
  | none => 0
  | some d => min d maxDelay

/-- A concrete well-formed record used by witnesses. -/
def exampleRecord : MockedRequest :=
  { UUID := "aaaa", CreatedAt := "2024-01-01 10:00:00", Status := 200,
    ContentType := "text/plain", Charset := "UTF-8",
    Headers := [("x-language", "golang")], Body := [72, 105] }

/-- A second and a third concrete record, younger than `exampleRecord`. -/
def exampleRecord2 : MockedRequest :=
  { exampleRecord with UUID := "cccc", CreatedAt := "2025-02-03 08:30:00" }

def exampleRecord3 : MockedRequest :=
  { exampleRecord with UUID := "dddd", CreatedAt := "2025-07-20 09:15:00" }

/-- A readable well-formed store with three records. -/
def threeStore : Store :=
  { readable := true,
    entries := [("aaaa", .ok exampleRecord), ("cccc", .ok exampleRecord2),
      ("dddd", .ok exampleRecord3)] }

/-- A store holding one valid record file and one corrupt file. -/
def corruptStore : Store :=
  { readable := true, entries := [("aaaa", .ok exampleRecord), ("bbbb", .corrupt)] }

/-- A record entry is intact when it deserializes and carries the UUID the
file is named by (the invariant `New` establishes: the file `<uuid>.json`
holds the record whose `UUID` field is `uuid`). -/
def entryWf (e : String × Entry) : Bool :=
  match e.2 with
  | .ok r => r.UUID == e.1
  | .corrupt => false

/-- A store as the repository produces it: every file deserializes into
the record it was written from, named by that record's UUID, and file
names are unique (a directory cannot hold two files with one name). -/
def Store.WellFormed (s : Store) : Prop :=
  s.entries.all entryWf = true ∧ (s.entries.map (fun e => e.1)).Nodup

/-! ## Helper lemmas -/

theorem headersEqual_refl (h : List (String × String)) : headersEqual h h = true := by
  simp [headersEqual, List.all_eq_true]

theorem equals_refl (m : MockedRequest) : m.Equals m = true := by
  simp [MockedRequest.Equals, headersEqual_refl]

/-! ## Claims -/

/-- C9: `MockedRequest.Equals` compares only `Status`, `ContentType`,
`Charset`, `Headers` and `Body`; two records that agree on those five
fields — hence differ at most in `UUID` or `CreatedAt` — always compare
equal. -/
theorem equals_ignores_uuid_and_createdAt (a b : MockedRequest)
    (hs : a.Status = b.Status) (hct : a.ContentType = b.ContentType)
    (hch : a.Charset = b.Charset) (hh : a.Headers = b.Headers)
    (hb : a.Body = b.Body) : a.Equals b = true := by
  simp [MockedRequest.Equals, hs, hct, hch, hh, hb, headersEqual_refl]

theorem equals_ignores_uuid_and_createdAt_witness :
    MockedRequest.Equals
      { UUID := "u1", CreatedAt := "2024-01-01 00:00:00", Status := 200,
        ContentType := "text/plain", Charset := "UTF-8",
        Headers := [("x-language", "golang")], Body := [72] }
      { UUID := "u2", CreatedAt := "2025-06-30 12:00:00", Status := 200,
        ContentType := "text/plain", Charset := "UTF-8",
        Headers := [("x-language", "golang")], Body := [72] } = true :=
  equals_ignores_uuid_and_createdAt _ _ rfl rfl rfl rfl rfl

/-- C8: `List` on an empty readable store returns the empty sequence and
no error. -/
theorem list_empty_store (s : Store) (hr : s.readable = true)
    (he : s.entries = []) : Mock.List s = .ok [] := by
  simp [Mock.List, hr, he, listDeserialize]

theorem list_empty_store_witness :
    Mock.List { readable := true, entries := [] } = .ok [] :=
  list_empty_store { readable := true, entries := [] } rfl rfl

/-- C6: the effective delay is 0 when the requested delay is absent or
unparsable, otherwise the minimum of the requested delay and the
server-configured maximum; in particular it never exceeds the maximum. -/
theorem effectiveDelay_capped (requested : Option Nat) (maxDelay d : Nat) :
    effectiveDelay none maxDelay = 0 ∧
    (requested = some d → effectiveDelay requested maxDelay = min d maxDelay) ∧
    effectiveDelay requested maxDelay ≤ maxDelay := by
  refine ⟨rfl, fun h => by simp [h, effectiveDelay], ?_⟩
  cases requested with
  | none => exact Nat.zero_le _
  | some d => exact Nat.min_le_right d maxDelay

theorem effectiveDelay_capped_witness :
    effectiveDelay (some 30000) 1000 = min 30000 1000 :=
  (effectiveDelay_capped (some 30000) 1000 30000).2.1 rfl

/-- C3: `New` reports the first invalid field in the fixed order status,
contentType, charset (an earlier invalid field masks a later one), and on
any validation failure the store is returned unchanged — no record is
persisted. -/
theorem new_first_invalid_field (s : Store) (params : ReqParams)
    (body : Bytes) (uuid t : String) :
    ((buildMock uuid t params body).Status ∉ pkg.HTTP_CODES →
      Mock.New s params body uuid t =
        (.error (statusErrMsg (buildMock uuid t params body).Status), s)) ∧
    ((buildMock uuid t params body).Status ∈ pkg.HTTP_CODES →
     (buildMock uuid t params body).ContentType ∉ pkg.CONTENT_TYPES →
      Mock.New s params body uuid t =
        (.error (contentTypeErrMsg (buildMock uuid t params body).ContentType), s)) ∧
    ((buildMock uuid t params body).Status ∈ pkg.HTTP_CODES →
     (buildMock uuid t params body).ContentType ∈ pkg.CONTENT_TYPES →
     (buildMock uuid t params body).Charset ∉ pkg.CHARSET →
      Mock.New s params body uuid t =
        (.error (charsetErrMsg (buildMock uuid t params body).Charset), s)) := by
  refine ⟨fun h1 => ?_, fun h1 h2 => ?_, fun h1 h2 h3 => ?_⟩
  · simp [Mock.New, h1]
  · simp [Mock.New, h1, h2]
  · simp [Mock.New, h1, h2, h3]

theorem new_first_invalid_field_witness :
    Mock.New { readable := true, entries := [] }
      [("status", ["999"]), ("contentType", ["bogus"])] [] "u" "t" =
      (.error (statusErrMsg 999), { readable := true, entries := [] }) :=
  (new_first_invalid_field { readable := true, entries := [] }
    [("status", ["999"]), ("contentType", ["bogus"])] [] "u" "t").1 (by decide)

/-- C10: when `New` succeeds, the persisted record's status, contentType
and charset belong to their vocabularies and the record written is exactly
the built candidate; a status parameter that fails to parse (empty string
included) is parsed to -1, and a candidate with status -1 is always
rejected with the status validation error, the store unchanged. -/
theorem new_persists_only_valid (s : Store) (params : ReqParams)
    (body : Bytes) (uuid t : String) :
    (∀ id s2, Mock.New s params body uuid t = (.ok id, s2) →
       (buildMock uuid t params body).Status ∈ pkg.HTTP_CODES ∧
       (buildMock uuid t params body).ContentType ∈ pkg.CONTENT_TYPES ∧
       (buildMock uuid t params body).Charset ∈ pkg.CHARSET ∧
       s2.entries = s.entries.filter (fun e => e.1 != uuid) ++
         [(uuid, Entry.ok (buildMock uuid t params body))]) ∧
    ((buildMock uuid t params body).Status = -1 →
      Mock.New s params body uuid t = (.error (statusErrMsg (-1)), s)) ∧
    (∀ v : String, stringToInt v = none → stringsutilInt v (-1) = -1) ∧
    stringToInt "" = none := by
  refine ⟨fun id s2 h => ?_, fun h => ?_,
    fun v hv => by simp [stringsutilInt, hv], by decide⟩
  · by_cases h1 : (buildMock uuid t params body).Status ∈ pkg.HTTP_CODES
    · by_cases h2 : (buildMock uuid t params body).ContentType ∈ pkg.CONTENT_TYPES
      · by_cases h3 : (buildMock uuid t params body).Charset ∈ pkg.CHARSET
        · refine ⟨h1, h2, h3, ?_⟩
          simp [Mock.New, h1, h2, h3] at h
          rw [← h.2]
        · simp [Mock.New, h1, h2, h3] at h
      · simp [Mock.New, h1, h2] at h
    · simp [Mock.New, h1] at h
  · have h1 : (buildMock uuid t params body).Status ∉ pkg.HTTP_CODES := by
      rw [h]; decide
    rw [← h]
    exact (new_first_invalid_field s params body uuid t).1 h1

theorem new_persists_only_valid_witness :
    Mock.New { readable := true, entries := [] } [("status", ["abc"])] [] "u" "t" =
      (.error (statusErrMsg (-1)), { readable := true, entries := [] }) :=
  (new_persists_only_valid { readable := true, entries := [] }
    [("status", ["abc"])] [] "u" "t").2.1 (by decide)

/-- C5 counterexample: a readable store containing a corrupt record file on
which `List` succeeds anyway, returning the summaries of the remaining
records — the corrupt record is not a whole-call error. -/
theorem list_corrupt_not_fatal :
    ("bbbb", Entry.corrupt) ∈ corruptStore.entries ∧
    Mock.List corruptStore = .ok [exampleRecord.toLight] :=
  ⟨by simp [corruptStore], rfl⟩

/-- C5 amended: a stored record that fails to deserialize is silently
skipped by `List` (its summary is simply absent from the result); `List`
fails as a whole only when the storage directory itself is unreadable. -/
theorem list_skips_corrupt (s : Store) :
    (s.readable = true →
      ∃ l, Mock.List s = .ok l ∧ l.Perm (listDeserialize s.entries)) ∧
    (s.readable = false → Mock.List s = .error "error to read directory") := by
  constructor
  · intro hr
    refine ⟨List.insertionSort lightOrder (listDeserialize s.entries), ?_,
      List.perm_insertionSort _ _⟩
    simp [Mock.List, hr]
  · intro hr
    simp [Mock.List, hr]

theorem list_skips_corrupt_witness :
    ∃ l, Mock.List corruptStore = .ok l ∧
      l.Perm (listDeserialize corruptStore.entries) :=
  (list_skips_corrupt corruptStore).1 rfl

/-- C1: for a valid candidate (status, contentType and charset each in its
vocabulary), `New` returns the fresh identifier and a subsequent `Get` on
that identifier yields a record `Equals`-equal to the candidate in status,
contentType, charset, headers and body. -/
theorem new_get_returns_candidate (s : Store) (params : ReqParams)
    (body : Bytes) (uuid t : String)
    (h1 : (buildMock uuid t params body).Status ∈ pkg.HTTP_CODES)
    (h2 : (buildMock uuid t params body).ContentType ∈ pkg.CONTENT_TYPES)
    (h3 : (buildMock uuid t params body).Charset ∈ pkg.CHARSET) :
    (Mock.New s params body uuid t).1 = .ok uuid ∧
    ∃ r, Mock.Get (Mock.New s params body uuid t).2 uuid = .ok r ∧
      r.Equals (buildMock uuid t params body) = true := by
  have hnew : Mock.New s params body uuid t =
      (.ok uuid,
       { s with entries := s.entries.filter (fun e => e.1 != uuid) ++
           [(uuid, .ok (buildMock uuid t params body))] }) := by
    simp [Mock.New, h1, h2, h3]
  refine ⟨by rw [hnew], buildMock uuid t params body, ?_, equals_refl _⟩
  rw [hnew]
  have hnone : (s.entries.filter (fun e => e.1 != uuid)).find?
      (fun e => e.1 == uuid) = none := by
    rw [List.find?_eq_none]
    intro x hx
    have hkeep := List.of_mem_filter hx
    simp only [bne_iff_ne, ne_eq] at hkeep
    simp [hkeep]
  simp only [Mock.Get, List.find?_append, hnone, Option.none_or]
  simp [List.find?]

theorem toLight_uuid (r : MockedRequest) : r.toLight.UUID = r.UUID := rfl

theorem listDeserialize_cons (e : String × Entry) (es : List (String × Entry)) :
    listDeserialize (e :: es) =
      (match e.2 with
       | .ok r => r.toLight :: listDeserialize es
       | .corrupt => listDeserialize es) := by
  obtain ⟨id, ent⟩ := e
  cases ent <;> simp [listDeserialize, List.filterMap_cons]

theorem listDeserialize_length (entries : List (String × Entry))
    (h : ∀ e ∈ entries, e.2 ≠ Entry.corrupt) :
    (listDeserialize entries).length = entries.length := by
  induction entries with
  | nil => rfl
  | cons e es ih =>
    have he := h e (List.mem_cons_self e es)
    have ih2 := ih (fun x hx => h x (List.mem_cons_of_mem e hx))
    cases hc : e.2 with
    | corrupt => exact absurd hc he
    | ok r =>
      rw [listDeserialize_cons, hc]
      simp [ih2]

theorem entryWf_uuid {e : String × Entry} {r : MockedRequest}
    (h : entryWf e = true) (hc : e.2 = Entry.ok r) : r.UUID = e.1 := by
  rw [entryWf, hc] at h
  exact eq_of_beq h

theorem listDeserialize_map_uuid (entries : List (String × Entry))
    (h : entries.all entryWf = true) :
    (listDeserialize entries).map (fun mr => mr.UUID) =
      entries.map (fun e => e.1) := by
  induction entries with
  | nil => rfl
  | cons e es ih =>
    rw [List.all_cons, Bool.and_eq_true] at h
    cases hc : e.2 with
    | corrupt => rw [entryWf, hc] at h; exact absurd h.1 (by simp)
    | ok r =>
      rw [listDeserialize_cons, hc, List.map_cons, List.map_cons,
        toLight_uuid, entryWf_uuid h.1 hc, ih h.2]

theorem listDeserialize_filter (entries : List (String × Entry))
    (ids : List String) (h : entries.all entryWf = true) :
    listDeserialize (entries.filter (fun e => !ids.contains e.1)) =
      (listDeserialize entries).filter (fun mr => !ids.contains mr.UUID) := by
  induction entries with
  | nil => rfl
  | cons e es ih =>
    rw [List.all_cons, Bool.and_eq_true] at h
    have ih2 := ih h.2
    cases hc : e.2 with
    | corrupt =>
      rw [entryWf, hc] at h
      exact absurd h.1 (by simp)
    | ok r =>
      have huuid : r.UUID = e.1 := entryWf_uuid h.1 hc
      rw [List.filter_cons, listDeserialize_cons, hc, List.filter_cons,
        toLight_uuid, huuid]
      by_cases hmem : (!ids.contains e.1) = true
      · rw [if_pos hmem, if_pos hmem, listDeserialize_cons, hc, ih2]
      · rw [if_neg hmem, if_neg hmem, ih2]

theorem filter_not_contains_take (l : List MockedRequestLight)
    (ids : List String) (k : Nat)
    (hnd : (l.map (fun mr => mr.UUID)).Nodup)
    (hids : ids = (l.drop k).map (fun mr => mr.UUID)) :
    l.filter (fun mr => !ids.contains mr.UUID) = l.take k := by
  have hsplit : (l.take k).map (fun mr => mr.UUID) ++
      (l.drop k).map (fun mr => mr.UUID) = l.map (fun mr => mr.UUID) := by
    rw [← List.map_append, List.take_append_drop]
  have hnd2 := hnd
  rw [← hsplit, List.nodup_append] at hnd2
  obtain ⟨-, -, hdisj⟩ := hnd2
  conv_lhs => rw [← List.take_append_drop k l]
  rw [List.filter_append]
  have h1 : (l.take k).filter (fun mr => !ids.contains mr.UUID) =
      l.take k := by
    rw [List.filter_eq_self]
    intro a ha
    have hmem : a.UUID ∈ (l.take k).map (fun mr => mr.UUID) :=
      List.mem_map_of_mem _ ha
    have hnot := hdisj hmem
    rw [hids]
    cases hb : ((l.drop k).map (fun mr => mr.UUID)).contains a.UUID with
    | false => rfl
    | true => exact absurd (by simpa using hb) hnot
  have h2 : (l.drop k).filter (fun mr => !ids.contains mr.UUID) = [] := by
    rw [List.filter_eq_nil_iff]
    intro a ha
    have hmem : a.UUID ∈ (l.drop k).map (fun mr => mr.UUID) :=
      List.mem_map_of_mem _ ha
    rw [hids]
    cases hb : ((l.drop k).map (fun mr => mr.UUID)).contains a.UUID with
    | true => simp
    | false => exact absurd hmem (by simpa using hb)
  rw [h1, h2, List.append_nil]

theorem length_filter_not_add {α : Type} (p : α → Bool) (l : List α) :
    (l.filter (fun a => !p a)).length + (l.filter p).length = l.length := by
  induction l with
  | nil => rfl
  | cons a as ih =>
    cases hp : p a <;> simp [List.filter_cons, hp] <;> omega

theorem length_filter_contains (entries : List (String × Entry))
    (ids : List String)
    (hnd : (entries.map (fun e => e.1)).Nodup) (hids : ids.Nodup)
    (hsub : ∀ x ∈ ids, x ∈ entries.map (fun e => e.1)) :
    (entries.filter (fun e => ids.contains e.1)).length = ids.length := by
  have hcomm : (entries.map (fun e => e.1)).filter (fun k => ids.contains k) =
      (entries.filter (fun e => ids.contains e.1)).map (fun e => e.1) := by
    rw [List.filter_map]
    rfl
  have hperm : ((entries.map (fun e => e.1)).filter
      (fun k => ids.contains k)).Perm ids := by
    apply List.perm_of_nodup_nodup_toFinset_eq
    · exact (List.filter_sublist _).nodup hnd
    · exact hids
    · ext x
      simp only [List.mem_toFinset, List.mem_filter]
      constructor
      · intro hx
        simpa using hx.2
      · intro hx
        exact ⟨hsub x hx, by simpa using hx⟩
  have := hperm.length_eq
  rw [hcomm, List.length_map] at this
  exact this

/-- C4: on a readable store whose records all deserialize, `List` returns
one summary per stored record — a permutation of the entry projections,
hence exactly N summaries for N records — sorted by `CreatedAt`
descending; the result is a pure function of the store, so ties are broken
deterministically within a call. -/
theorem list_sorted_newest_first (s : Store) (hr : s.readable = true)
    (hok : ∀ e ∈ s.entries, e.2 ≠ Entry.corrupt) :
    ∃ l, Mock.List s = .ok l ∧
      l.length = s.entries.length ∧
      l.Perm (listDeserialize s.entries) ∧
      List.Sorted lightOrder l := by
  refine ⟨List.insertionSort lightOrder (listDeserialize s.entries),
    by simp [Mock.List, hr], ?_,
    List.perm_insertionSort _ _, List.sorted_insertionSort _ _⟩
  rw [(List.perm_insertionSort lightOrder _).length_eq,
    listDeserialize_length _ hok]

theorem list_sorted_newest_first_witness :
    ∃ l, Mock.List threeStore = .ok l ∧
      l.length = threeStore.entries.length ∧
      l.Perm (listDeserialize threeStore.entries) ∧
      List.Sorted lightOrder l :=
  list_sorted_newest_first threeStore rfl (by decide)

theorem new_get_returns_candidate_witness :
    (Mock.New { readable := true, entries := [] }
      [("status", ["200"]), ("contentType", ["text/plain"]),
       ("charset", ["UTF-8"]), ("x-language", ["golang"])] [72] "u1" "t1").1 =
      .ok "u1" ∧
    ∃ r, Mock.Get (Mock.New { readable := true, entries := [] }
      [("status", ["200"]), ("contentType", ["text/plain"]),
       ("charset", ["UTF-8"]), ("x-language", ["golang"])] [72] "u1" "t1").2 "u1" =
      .ok r ∧
      r.Equals (buildMock "u1" "t1"
        [("status", ["200"]), ("contentType", ["text/plain"]),
         ("charset", ["UTF-8"]), ("x-language", ["golang"])] [72]) = true :=
  new_get_returns_candidate { readable := true, entries := [] }
    [("status", ["200"]), ("contentType", ["text/plain"]),
     ("charset", ["UTF-8"]), ("x-language", ["golang"])] [72] "u1" "t1"
    (by decide) (by decide) (by decide)

/-- C7: on a well-formed readable store, `Clean` succeeds for every
pattern of individual `os.Remove` failures — a failed deletion is
suppressed, not propagated — and the returned count equals the number of
records actually removed from the store (failed deletions are excluded);
an error from the underlying `List` (unreadable directory, reached only
when `maxLimit ≥ 1`) is propagated as `Clean`'s error. -/
theorem clean_suppresses_delete_failures (s : Store) (removeOk : String → Bool)
    (maxLimit : Int) (hwf : s.WellFormed) :
    (s.readable = true →
      ∃ cnt s2, Mock.Clean s removeOk maxLimit = (.ok cnt, s2) ∧
        cnt = (s.entries.length : Int) - (s2.entries.length : Int)) ∧
    (s.readable = false → 1 ≤ maxLimit →
      Mock.Clean s removeOk maxLimit = (.error "error to read directory", s)) := by
  constructor
  · intro hr
    by_cases hm : maxLimit < 1
    · exact ⟨0, s, by simp [Mock.Clean, hm], by omega⟩
    · have hlist : Mock.List s =
          .ok (List.insertionSort lightOrder (listDeserialize s.entries)) := by
        simp [Mock.List, hr]
      set L := List.insertionSort lightOrder (listDeserialize s.entries) with hL
      by_cases hnb : (L.length : Int) - maxLimit < 1
      · refine ⟨0, s, ?_, by omega⟩
        simp only [Mock.Clean, if_neg hm, hlist]
        rw [if_pos hnb]
      · set k := L.length - ((L.length : Int) - maxLimit).toNat with hk
        set tail := L.drop k with htail
        set removed := tail.filter (fun mr => removeOk mr.UUID) with hremoved
        set ids := removed.map (fun mr => mr.UUID) with hids
        have hclean : Mock.Clean s removeOk maxLimit =
            (.ok (removed.length : Int),
             { s with entries :=
                 s.entries.filter (fun e => !ids.contains e.1) }) := by
          simp only [Mock.Clean, if_neg hm, hlist]
          rw [if_neg hnb]
        refine ⟨(removed.length : Int), _, hclean, ?_⟩
        have hmapL : L.map (fun mr => mr.UUID) =
            (List.insertionSort lightOrder (listDeserialize s.entries)).map
              (fun mr => mr.UUID) := by rw [hL]
        have hLperm : (L.map (fun mr => mr.UUID)).Perm
            ((listDeserialize s.entries).map (fun mr => mr.UUID)) := by
          rw [hL]
          exact (List.perm_insertionSort lightOrder _).map _
        have hkeys : ((listDeserialize s.entries).map (fun mr => mr.UUID)) =
            s.entries.map (fun e => e.1) := listDeserialize_map_uuid _ hwf.1
        have hndL : (L.map (fun mr => mr.UUID)).Nodup := by
          apply hLperm.symm.nodup
          rw [hkeys]
          exact hwf.2
        have hsubids : ids.Sublist (L.map (fun mr => mr.UUID)) := by
          rw [hids, hremoved, htail]
          exact ((List.filter_sublist _).trans (List.drop_sublist _ _)).map _
        have hidsnd : ids.Nodup := hsubids.nodup hndL
        have hidssub : ∀ x ∈ ids, x ∈ s.entries.map (fun e => e.1) := by
          intro x hx
          rw [← hkeys]
          exact hLperm.mem_iff.mp (hsubids.subset hx)
        have hcount := length_filter_contains s.entries ids hwf.2 hidsnd hidssub
        have hpart := length_filter_not_add
          (fun e => ids.contains e.1) s.entries
        have hidslen : ids.length = removed.length := by
          rw [hids, List.length_map]
        show (removed.length : Int) = (s.entries.length : Int) -
          ((s.entries.filter (fun e => !ids.contains e.1)).length : Int)
        omega
  · intro hr hm
    have hlist : Mock.List s = .error "error to read directory" := by
      simp [Mock.List, hr]
    simp only [Mock.Clean, if_neg (by omega : ¬ maxLimit < 1), hlist]

/-- C2: on a readable well-formed store enumerated by `List` as `l`,
`Clean(limit)` removes nothing and returns 0 with no error when
`limit < 1`; removes nothing when `limit ≥ l.length`; and otherwise (all
deletions succeeding) returns exactly `l.length − limit`, removes the
oldest records — the tail of the newest-first enumeration — and a
subsequent `List` contains exactly the `limit` most recent records (a
permutation of the first `limit` entries of `l`). -/
theorem clean_trims_to_limit (s : Store) (maxLimit : Int)
    (l : List MockedRequestLight) (hr : s.readable = true)
    (hwf : s.WellFormed) (hl : Mock.List s = .ok l) :
    (maxLimit < 1 → Mock.Clean s (fun _ => true) maxLimit = (.ok 0, s)) ∧
    ((l.length : Int) ≤ maxLimit →
      Mock.Clean s (fun _ => true) maxLimit = (.ok 0, s)) ∧
    (1 ≤ maxLimit → maxLimit < (l.length : Int) →
      ∃ s2, Mock.Clean s (fun _ => true) maxLimit =
          (.ok ((l.length : Int) - maxLimit), s2) ∧
        ∃ l2, Mock.List s2 = .ok l2 ∧
          l2.length = maxLimit.toNat ∧ l2.Perm (l.take maxLimit.toNat)) := by
  have hlist : Mock.List s =
      .ok (List.insertionSort lightOrder (listDeserialize s.entries)) := by
    simp [Mock.List, hr]
  set L := List.insertionSort lightOrder (listDeserialize s.entries) with hL
  have hleq : l = L := by
    rw [hl] at hlist
    exact Except.ok.inj hlist
  have hlen : l.length = L.length := by rw [hleq]
  refine ⟨fun hm => by simp [Mock.Clean, hm], fun hm => ?_, fun h1 h2 => ?_⟩
  · by_cases hm1 : maxLimit < 1
    · simp [Mock.Clean, hm1]
    · simp only [Mock.Clean, if_neg hm1, hlist]
      rw [if_pos (by omega : (L.length : Int) - maxLimit < 1)]
  · have hm : ¬ maxLimit < 1 := by omega
    have hnb : ¬ ((L.length : Int) - maxLimit < 1) := by omega
    have hkm : L.length - ((L.length : Int) - maxLimit).toNat =
        maxLimit.toNat := by omega
    have hclean : Mock.Clean s (fun _ => true) maxLimit =
        (.ok (((L.drop maxLimit.toNat).length : Int)),
         { s with entries := s.entries.filter (fun e =>
             !(((L.drop maxLimit.toNat).map (fun mr => mr.UUID)).contains e.1)) }) := by
      simp only [Mock.Clean, if_neg hm, hlist]
      rw [if_neg hnb]
      simp only [List.filter_true, hkm]
    have hcnt : ((L.drop maxLimit.toNat).length : Int) =
        (l.length : Int) - maxLimit := by
      rw [List.length_drop]
      omega
    rw [hcnt] at hclean
    refine ⟨_, hclean, ?_⟩
    set ids := (L.drop maxLimit.toNat).map (fun mr => mr.UUID) with hids
    have hLperm : (L.map (fun mr => mr.UUID)).Perm
        ((listDeserialize s.entries).map (fun mr => mr.UUID)) := by
      rw [hL]
      exact (List.perm_insertionSort lightOrder _).map _
    have hkeys : ((listDeserialize s.entries).map (fun mr => mr.UUID)) =
        s.entries.map (fun e => e.1) := listDeserialize_map_uuid _ hwf.1
    have hndL : (L.map (fun mr => mr.UUID)).Nodup := by
      apply hLperm.symm.nodup
      rw [hkeys]
      exact hwf.2
    have hfilter : listDeserialize (s.entries.filter
        (fun e => !ids.contains e.1)) =
        (listDeserialize s.entries).filter
          (fun mr => !ids.contains mr.UUID) :=
      listDeserialize_filter s.entries ids hwf.1
    have htake : L.filter (fun mr => !ids.contains mr.UUID) =
        L.take maxLimit.toNat :=
      filter_not_contains_take L ids maxLimit.toNat hndL hids
    have hpermD : ((listDeserialize s.entries).filter
        (fun mr => !ids.contains mr.UUID)).Perm (L.take maxLimit.toNat) := by
      rw [← htake]
      exact List.Perm.filter _ (List.perm_insertionSort lightOrder _).symm
    have hlist2 : Mock.List { s with
                    entries := s.entries.filter
                      (fun e => !ids.contains e.1) } =
        .ok (List.insertionSort lightOrder (listDeserialize
          (s.entries.filter (fun e => !ids.contains e.1)))) := by
      simp [Mock.List, hr]
    refine ⟨_, hlist2, ?_, ?_⟩
    · rw [(List.perm_insertionSort lightOrder _).length_eq, hfilter,
        hpermD.length_eq, List.length_take]
      omega
    · rw [hleq]
      have hstep : (listDeserialize (s.entries.filter
          (fun e => !ids.contains e.1))).Perm (L.take maxLimit.toNat) := by
        rw [hfilter]
        exact hpermD
      exact (List.perm_insertionSort lightOrder _).trans hstep

theorem clean_trims_to_limit_witness :
    ∃ s2, Mock.Clean threeStore (fun _ => true) 1 =
        (.ok ((([exampleRecord3.toLight, exampleRecord2.toLight,
            exampleRecord.toLight] : List MockedRequestLight).length : Int) - 1),
          s2) ∧
      ∃ l2, Mock.List s2 = .ok l2 ∧
        l2.length = (1 : Int).toNat ∧
        l2.Perm (([exampleRecord3.toLight, exampleRecord2.toLight,
          exampleRecord.toLight] : List MockedRequestLight).take (1 : Int).toNat) :=
  (clean_trims_to_limit threeStore 1
    [exampleRecord3.toLight, exampleRecord2.toLight, exampleRecord.toLight]
    rfl (by constructor <;> decide) rfl).2.2 (by decide) (by decide)

theorem clean_suppresses_delete_failures_witness :
    ∃ cnt s2, Mock.Clean threeStore (fun id => id != "aaaa") 1 =
        (.ok cnt, s2) ∧
      cnt = (threeStore.entries.length : Int) - (s2.entries.length : Int) :=
  (clean_suppresses_delete_failures threeStore (fun id => id != "aaaa") 1
    (by constructor <;> decide)).1 rfl

end Gmocky
